import Mathlib

/-!
# claude-hue: verification of the usage-arbitration and light-update daemon

Shallow embedding of the claude-hue daemon (TypeScript) in Lean 4.

Modelling conventions, used throughout:

* JavaScript numbers are modelled as `ℚ` (the programs under study perform
  only field operations, `Math.min`/`Math.max`, `Math.round` and division by
  the constant 100; `NaN`/`Infinity` inputs are outside the model's domain).
* JSON documents are modelled by the inductive `JsonValue`; objects are
  association lists in insertion order, as `Object.entries` enumerates them
  (JSON.parse collapses duplicate keys before the code under study runs, so
  field lists carry at most one binding per key).
* String fields consumed as strings by the source (`type`, `name`,
  `limit_type`) are read with `getStrField`; a present non-string value in
  one of these positions makes the TypeScript source throw a `TypeError`
  downstream (callers treat that as adapter failure) and is outside the
  embedding's input domain.
* The file system is modelled as `Option String` / `Option (List Char)`
  (`none` = file absent); timestamp parsing (`new Date(line).getTime()`)
  is a parameter `parseTs : List Char → Option ℤ` since the claims under
  study hold for every timestamp format.
-/

namespace ClaudeHue

/-! ## JSON model -/

/-- A parsed JSON document, as handed to the usage parsers after
`JSON.parse`. Objects keep insertion order, matching `Object.entries`. -/
inductive JsonValue where
  | num (q : ℚ)
  | str (s : String)
  | bool (b : Bool)
  | null
  | arr (elems : List JsonValue)
  | obj (fields : List (String × JsonValue))
deriving Repr, Inhabited

/-- First binding of key `k` in an object's field list (post-`JSON.parse`
objects have no duplicate keys). -/
def getField (fields : List (String × JsonValue)) (k : String) : Option JsonValue :=
  (fields.find? (fun p => p.1 == k)).map (fun p => p.2)

/-- Reads a field expected to hold a string: `some s` when the field is
present with a string value, `none` when absent or `null`. -/
def getStrField (fields : List (String × JsonValue)) (k : String) : Option String :=
  match getField fields k with
  | some (.str s) => some s
  | _ => none

/-! ## Small JavaScript semantics helpers -/

/-- `Math.round`: round half toward positive infinity. -/
def jsRound (q : ℚ) : ℤ := ⌊q + 1/2⌋

/-- `Math.max(...)` over a list that the callers guard to be non-empty
(the source returns `0`/`-Infinity` only on paths it explicitly guards). -/
def jsMaxList : List ℚ → ℚ
  | [] => 0
  | [x] => x
  | x :: y :: rest => max x (jsMaxList (y :: rest))

/-- Character-level prefix test used by `strContains`. -/
def prefixAt : List Char → List Char → Bool
  | [], _ => true
  | _ :: _, [] => false
  | p :: ps, c :: cs => p == c && prefixAt ps cs

/-- Substring search over character lists. -/
def containsAux (pat : List Char) : List Char → Bool
  | [] => prefixAt pat []
  | c :: rest => prefixAt pat (c :: rest) || containsAux pat rest

/-- `String.prototype.includes`. -/
def strContains (s pat : String) : Bool :=
  containsAux pat.toList s.toList

/-- ASCII lower-casing of one character. -/
def asciiToLower (c : Char) : Char :=
  if 65 ≤ c.toNat ∧ c.toNat ≤ 90 then Char.ofNat (c.toNat + 32) else c

/-- `String.prototype.toLowerCase` (ASCII; the category names under study
are ASCII). -/
def jsToLower (s : String) : String := String.mk (s.toList.map asciiToLower)

/-- Rendering of a JSON value inside a template literal (`${v}`). String
and integer cases are exact; fractional numbers and arrays are shown in
Lean notation, a display-only approximation outside the claims' domain. -/
def jsDisplay : JsonValue → String
  | .str s => s
  | .num q => if q.den = 1 then toString q.num else toString q
  | .bool b => if b then "true" else "false"
  | .null => "null"
  | .obj _ => "[object Object]"
  | .arr _ => "[array]"

/-- JavaScript truthiness of a JSON value. -/
def jsTruthy : JsonValue → Bool
  | .str s => s ≠ ""
  | .num q => q ≠ 0
  | .bool b => b
  | .null => false
  | .obj _ => true
  | .arr _ => true

/-- Value of a digit run, most significant first. -/
def digitsVal (ds : List Char) : ℕ :=
  ds.foldl (fun a c => 10 * a + (c.toNat - '0'.toNat)) 0

/-- `parseFloat`: optional sign, integer part, optional fraction. Returns
`none` where JavaScript returns `NaN` (no digit at all). Exponent notation
is outside the model's domain. -/
def jsParseFloat (s : String) : Option ℚ :=
  let cs := s.toList.dropWhile (fun c => c.isWhitespace)
  let signed : ℚ × List Char :=
    match cs with
    | '-' :: r => (-1, r)
    | '+' :: r => (1, r)
    | _ => (1, cs)
  let ip := signed.2.takeWhile (fun c => c.isDigit)
  let rest := signed.2.dropWhile (fun c => c.isDigit)
  let fp :=
    match rest with
    | '.' :: r => r.takeWhile (fun c => c.isDigit)
    | _ => []
  if ip = [] ∧ fp = [] then none
  else some (signed.1 * ((digitsVal ip : ℚ) + (digitsVal fp : ℚ) / (10 : ℚ) ^ fp.length))

/-- First of a field whose value is present and not `null`
(the `??` nullish-coalescing step). -/
def nullishField (fields : List (String × JsonValue)) (k : String) : Option JsonValue :=
  match getField fields k with
  | some .null => none
  | some v => some v
  | none => none

/-! ## `src/daemon/daemon.ts` — `parseExtensionUsage` (push-payload parser) -/

/-- One category entry collected by `parseExtensionUsage`
(`{ type, pct, reset }` with `pct` on the 0–100 scale). -/
structure ExtEntry where
  type : String
  pct : ℚ
  reset : Option JsonValue
deriving Repr

/-- Result of `parseExtensionUsage`. -/
structure ParsedUsage where
  percentage : ℚ
  details : String
deriving Repr, DecidableEq

/-- `typeof v.k === "number" ? v.k : null`. -/
def extGetNum (v : List (String × JsonValue)) (k : String) : Option ℚ :=
  match getField v k with
  | some (.num q) => some q
  | _ => none

/-- The raw numeric field chain of `parseExtensionUsage`:
`utilization ?? percentUsed ?? percent_used ?? percentage`,
each accepted only when of number type. -/
def extRawPercent (v : List (String × JsonValue)) : Option ℚ :=
  (extGetNum v "utilization").orElse fun _ =>
  (extGetNum v "percentUsed").orElse fun _ =>
  (extGetNum v "percent_used").orElse fun _ =>
  extGetNum v "percentage"

/-- `v.resetAt ?? v.reset_at ?? v.resets_at ?? v.resetsAt`. -/
def extReset (v : List (String × JsonValue)) : Option JsonValue :=
  (nullishField v "resetAt").orElse fun _ =>
  (nullishField v "reset_at").orElse fun _ =>
  (nullishField v "resets_at").orElse fun _ =>
  nullishField v "resetsAt"

/-- The `!data || typeof data !== "object"` guard followed by
`Object.entries(data)`: accepts objects and (per `typeof`) arrays, whose
entries are index-keyed. -/
def extFields : JsonValue → Option (List (String × JsonValue))
  | .obj fields => some fields
  | .arr elems => some (elems.enum.map (fun p => (toString p.1, p.2)))
  | _ => none

/-- The entry-collection loop of `parseExtensionUsage`: keeps values that
are non-array objects with an extractable raw number, normalizing raw
values `≤ 1` onto the 0–100 scale (`raw > 1 ? raw : raw * 100`). -/
def extEntries (fields : List (String × JsonValue)) : List ExtEntry :=
  fields.filterMap fun kv =>
    match kv.2 with
    | .obj v =>
      (extRawPercent v).map fun raw =>
        { type := kv.1
          pct := if raw > 1 then raw else raw * 100
          reset := extReset v }
    | _ => none

/-- The `${e.type}: ${Math.round(e.pct)}%${resetInfo}` piece of the
details string. -/
def extDetailPiece (e : ExtEntry) : String :=
  let resetInfo :=
    match e.reset with
    | some r => if jsTruthy r then ", resets " ++ jsDisplay r else ""
    | none => ""
  e.type ++ ": " ++ toString (jsRound e.pct) ++ "%" ++ resetInfo

/-- `parseExtensionUsage` (`src/daemon/daemon.ts`): parses a usage payload
pushed by the browser extension, returning the highest category
percentage (normalized to 0–1) and a display string. -/
def parseExtensionUsage (data : JsonValue) : Option ParsedUsage :=
  match extFields data with
  | none => none
  | some fields =>
    let entries := extEntries fields
    if entries.isEmpty then none
    else
      some
        { percentage := jsMaxList (entries.map (fun e => e.pct)) / 100
          details := String.intercalate " | " (entries.map extDetailPiece) }

/-! ## `src/claude/api.ts` — `parseUsageEntry` / `parseUsageResponse` -/

/-- A parsed limit (`UsageLimit` in `src/claude/api.ts`). `resetAt` keeps
the raw JSON value (the source's `as string` cast has no runtime effect). -/
structure UsageLimit where
  type : String
  percentUsed : ℚ
  resetAt : Option JsonValue
deriving Repr

/-- `ClaudeUsageResponse` in `src/claude/api.ts`. -/
structure ClaudeUsageResponse where
  limits : List UsageLimit
  highestPercent : ℚ
deriving Repr

/-- `toNumber` (`src/claude/api.ts`): numbers pass through, strings go
through `parseFloat`, everything else is `null`. -/
def toNumber : Option JsonValue → Option ℚ
  | some (.num q) => some q
  | some (.str s) => jsParseFloat s
  | _ => none

/-- The raw field chain of `parseUsageEntry`:
`utilization ?? percentUsed ?? percent_used ?? percentage ?? usage_percentage`,
each put through `toNumber`. -/
def apiRawPercent (entry : List (String × JsonValue)) : Option ℚ :=
  (toNumber (getField entry "utilization")).orElse fun _ =>
  (toNumber (getField entry "percentUsed")).orElse fun _ =>
  (toNumber (getField entry "percent_used")).orElse fun _ =>
  (toNumber (getField entry "percentage")).orElse fun _ =>
  toNumber (getField entry "usage_percentage")

/-- The `entry.type ?? entry.name ?? entry.limit_type ?? fallbackType ??
"unknown"` chain. Type-like fields, when present, are assumed to hold
strings (see the domain note at the top of the file). -/
def apiLimitType (entry : List (String × JsonValue)) (fallbackType : Option String) : String :=
  ((getStrField entry "type").orElse fun _ =>
   (getStrField entry "name").orElse fun _ =>
   (getStrField entry "limit_type").orElse fun _ =>
   fallbackType).getD "unknown"

/-- The `resetAt ?? reset_at ?? resets_at ?? resetsAt ?? expires_at ?? null`
chain of `parseUsageEntry`. -/
def apiResetAt (entry : List (String × JsonValue)) : Option JsonValue :=
  (nullishField entry "resetAt").orElse fun _ =>
  (nullishField entry "reset_at").orElse fun _ =>
  (nullishField entry "resets_at").orElse fun _ =>
  (nullishField entry "resetsAt").orElse fun _ =>
  nullishField entry "expires_at"

/-- `parseUsageEntry` (`src/claude/api.ts`): extracts one limit from an
entry object, normalizing raw values `> 1` from the 0–100 scale to 0–1. -/
def parseUsageEntry (entry : List (String × JsonValue)) (fallbackType : Option String) :
    Option UsageLimit :=
  match apiRawPercent entry with
  | none => none
  | some raw =>
    some
      { type := apiLimitType entry fallbackType
        percentUsed := if raw > 1 then raw / 100 else raw
        resetAt := apiResetAt entry }

/-- `l.type.toLowerCase().includes("five_hour") || ...includes("five hour")`. -/
def isFiveHourLimit (l : UsageLimit) : Bool :=
  strContains (jsToLower l.type) "five_hour" || strContains (jsToLower l.type) "five hour"

/-- `l.type.toLowerCase().includes("seven_day") || ...includes("seven day")`. -/
def isSevenDayLimit (l : UsageLimit) : Bool :=
  strContains (jsToLower l.type) "seven_day" || strContains (jsToLower l.type) "seven day"

/-- `limits.filter((l) => !l.type.toLowerCase().includes("extra"))`. -/
def nonExtraLimits (limits : List UsageLimit) : List UsageLimit :=
  limits.filter (fun l => !(strContains (jsToLower l.type) "extra"))

/-- The driving-percentage computation at the end of `parseUsageResponse`:
prefer a `five_hour` limit, then a `seven_day` limit; otherwise take the
maximum over non-"extra" limits, `0` when none exist. -/
def drivingPercent (limits : List UsageLimit) : ℚ :=
  let fiveHour := limits.find? isFiveHourLimit
  let sevenDay := limits.find? isSevenDayLimit
  let primary := fiveHour.orElse fun _ => sevenDay
  let limitsForHighest :=
    match primary with
    | some p => [p]
    | none => nonExtraLimits limits
  if limitsForHighest.length > 0 then jsMaxList (limitsForHighest.map (fun l => l.percentUsed))
  else 0

/-- The key loop of `parseUsageResponse`'s object branch: per key, an
object value contributes `parseUsageEntry(val, key)`; additionally, a key
literally named `percentUsed`/`percent_used`/`percentage` makes the whole
object be parsed as a single entry, with `break` on success. -/
def objLoop (whole : List (String × JsonValue)) :
    List (String × JsonValue) → List UsageLimit
  | [] => []
  | (k, v) :: rest =>
    let fromVal : List UsageLimit :=
      match v with
      | .obj f =>
        match parseUsageEntry f (some k) with
        | some l => [l]
        | none => []
      | _ => []
    if k = "percentUsed" ∨ k = "percent_used" ∨ k = "percentage" then
      match parseUsageEntry whole none with
      | some l => fromVal ++ [l]
      | none => fromVal ++ objLoop whole rest
    else fromVal ++ objLoop whole rest

/-- The limit-collection part of `parseUsageResponse`: array responses
contribute one entry per object element (property access on a non-object
element yields no numeric field, hence no limit); object responses go
through `objLoop`. -/
def collectLimits : JsonValue → List UsageLimit
  | .arr entries =>
    entries.filterMap fun e =>
      match e with
      | .obj f => parseUsageEntry f none
      | _ => none
  | .obj fields => objLoop fields fields
  | _ => []

/-- `parseUsageResponse` (`src/claude/api.ts`). -/
def parseUsageResponse (raw : JsonValue) : ClaudeUsageResponse :=
  let limits := collectLimits raw
  { limits := limits, highestPercent := drivingPercent limits }

/-! ## `src/daemon/usage.ts` — local fallback calculator and log trim

File contents are `Option (List Char)` (`none` = file absent); timestamp
parsing of one trimmed line is the parameter `parseTs`. -/

/-- `String.prototype.split("\n")` on character lists: `""` splits to
`[""]`, a trailing newline yields a trailing empty piece. -/
def splitNl : List Char → List (List Char)
  | [] => [[]]
  | c :: cs =>
    if c = '\n' then [] :: splitNl cs
    else
      match splitNl cs with
      | [] => [[c]]
      | l :: ls => (c :: l) :: ls

/-- `String.prototype.trim` on character lists. -/
def trimChars (l : List Char) : List Char :=
  ((l.dropWhile (fun c => c.isWhitespace)).reverse.dropWhile (fun c => c.isWhitespace)).reverse

/-- The per-line keep test shared by `calculateUsage` and `trimLog`:
`!isNaN(ts) && ts >= cutoff` for `ts = new Date(line.trim()).getTime()`. -/
def lineRecent (parseTs : List Char → Option ℤ) (cutoff : ℤ) (line : List Char) : Bool :=
  match parseTs (trimChars line) with
  | some ts => decide (cutoff ≤ ts)
  | none => false

/-- `UsageResult` in `src/types.ts`. -/
structure UsageResult where
  count : ℕ
  percentage : ℚ
deriving Repr, DecidableEq

/-- `calculateUsage` (`src/daemon/usage.ts`): counts parseable log lines
within the rolling window and caps the ratio at 1. -/
def calculateUsage (parseTs : List Char → Option ℤ) (file : Option (List Char))
    (windowMs : ℤ) (maxPrompts : ℕ) (now : ℤ) : UsageResult :=
  match file with
  | none => { count := 0, percentage := 0 }
  | some content =>
    let cutoff := now - windowMs
    let lines := (splitNl content).filter (fun l => l ≠ [])
    let recentEntries := lines.filter (lineRecent parseTs cutoff)
    let count := recentEntries.length
    { count := count, percentage := min ((count : ℚ) / (maxPrompts : ℚ)) 1 }

/-- `Array.prototype.join("\n")` on character lists. -/
def joinNl : List (List Char) → List Char
  | [] => []
  | [l] => l
  | l :: l' :: ls => l ++ '\n' :: joinNl (l' :: ls)

/-- `trimLog` (`src/daemon/usage.ts`): rewrites the log keeping lines
within `2 × windowMs` (`kept.join("\n")` plus a trailing newline when any
line is kept); missing file is a no-op. -/
def trimLog (parseTs : List Char → Option ℤ) (file : Option (List Char))
    (windowMs : ℤ) (now : ℤ) : Option (List Char) :=
  match file with
  | none => none
  | some content =>
    let cutoff := now - windowMs * 2
    let lines := (splitNl content).filter (fun l => l ≠ [])
    let kept := lines.filter (lineRecent parseTs cutoff)
    some (joinNl kept ++ if kept.isEmpty then [] else ['\n'])

/-! ## `src/hue/color.ts` — interpolation -/

/-- `CieXY` in `src/types.ts`. -/
structure CieXY where
  x : ℚ
  y : ℚ
deriving Repr, DecidableEq

/-- `interpolateColor` (`src/hue/color.ts`): linear interpolation between
two CIE xy points with the parameter clamped to `[0, 1]`. -/
def interpolateColor (start e : CieXY) (t : ℚ) : CieXY :=
  let clamped := max 0 (min 1 t)
  { x := start.x + (e.x - start.x) * clamped
    y := start.y + (e.y - start.y) * clamped }

/-- `interpolateBrightness` (`src/hue/color.ts`): clamped linear
interpolation followed by `Math.round`. -/
def interpolateBrightness (start e t : ℚ) : ℤ :=
  let clamped := max 0 (min 1 t)
  jsRound (start + (e - start) * clamped)

/-! ## `src/daemon/daemon.ts` — snapshot store, resolver and poll tick

The tick body (lines 327–397) is modelled as a pure transition on the
daemon's one piece of mutable state, `remoteUsage`. The environment fixes
one tick instant `now` and the outcome each network adapter would produce
if invoked (`Except.error` = the call throws). The file-watcher re-arming
side effect touches no state the claims mention and is not modelled. -/

/-- `USAGE_STALE_MS` (`src/daemon/daemon.ts`). -/
def USAGE_STALE_MS : ℤ := 5 * 60 * 1000

/-- Provenance tag of a resolved usage value. The stored snapshot only
ever carries `extension`, `oauth` or `api`. -/
inductive Source where
  | extension
  | oauth
  | api
  | local
deriving Repr, DecidableEq

/-- The `remoteUsage` snapshot record (`src/daemon/daemon.ts`). -/
structure RemoteUsage where
  percentage : ℚ
  details : String
  receivedAt : ℤ
  source : Source
deriving Repr, DecidableEq

/-- The daemon's shared mutable state: the latest remote snapshot. -/
structure DaemonState where
  remoteUsage : Option RemoteUsage
deriving Repr, DecidableEq

/-- The subset of `ClaudeHueConfig` the resolver reads. -/
structure UsageConfig where
  maxPrompts : ℕ
  windowMs : ℤ
deriving Repr, DecidableEq

/-- Cookie credentials (`config.claude`). -/
structure ClaudeConfig where
  cookie : Option String
  orgId : Option String
deriving Repr, DecidableEq

/-- Daemon configuration (resolution-relevant fields). -/
structure ClaudeHueConfig where
  usage : UsageConfig
  claude : Option ClaudeConfig
deriving Repr, DecidableEq

/-- `config.claude?.cookie && config.claude?.orgId` (string truthiness). -/
def cookieConfigured (config : ClaudeHueConfig) : Bool :=
  match config.claude with
  | some c =>
    (match c.cookie with | some s => s ≠ "" | none => false) &&
    (match c.orgId with | some s => s ≠ "" | none => false)
  | none => false

/-- One tick's environment: the instant and what each external call would
return if made. -/
structure TickEnv where
  now : ℤ
  oauthToken : Option String
  oauthFetch : Except Unit ClaudeUsageResponse
  cookieFetch : Except Unit ClaudeUsageResponse
  logFile : Option (List Char)
  parseTs : List Char → Option ℤ

/-- The resolved value handed to the light controller. -/
structure Resolved where
  percentage : ℚ
  source : Source
  details : String
deriving Repr, DecidableEq

/-- The `${l.type}: ${Math.round(l.percentUsed * 100)}%...` piece used by
the daemon when storing an OAuth/cookie fetch result. -/
def limitDetailPiece (l : UsageLimit) : String :=
  l.type ++ ": " ++ toString (jsRound (l.percentUsed * 100)) ++ "%" ++
    (match l.resetAt with
     | some r => if jsTruthy r then ", resets " ++ jsDisplay r else ""
     | none => "")

/-- `result.limits.map(...).join(" | ")` in the daemon's fetch branches. -/
def limitsDetails (ls : List UsageLimit) : String :=
  String.intercalate " | " (ls.map limitDetailPiece)

/-- `getUsagePercentage` (`src/daemon/daemon.ts`): a remote snapshot
younger than `USAGE_STALE_MS` wins; otherwise the local prompt count. -/
def getUsagePercentage (env : TickEnv) (config : ClaudeHueConfig) (st : DaemonState) :
    Resolved :=
  let localResolved : Resolved :=
    let u := calculateUsage env.parseTs env.logFile config.usage.windowMs
      config.usage.maxPrompts env.now
    { percentage := u.percentage
      source := .local
      details := toString u.count ++ "/" ++ toString config.usage.maxPrompts ++ " prompts" }
  match st.remoteUsage with
  | some r =>
    if env.now - r.receivedAt < USAGE_STALE_MS then
      { percentage := r.percentage, source := r.source, details := r.details }
    else localResolved
  | none => localResolved

/-- The OAuth refresh step of the poll tick (step 1 inside `if (isStale)`):
returns the possibly-updated state and whether `fetchUsageViaOAuth` ran. -/
def oauthRefresh (env : TickEnv) (st : DaemonState) : DaemonState × Bool :=
  match env.oauthToken with
  | none => (st, false)
  | some _ =>
    match env.oauthFetch with
    | .error _ => (st, true)
    | .ok result =>
      if result.limits.length > 0 then
        (⟨some { percentage := result.highestPercent
                 details := limitsDetails result.limits
                 receivedAt := env.now
                 source := .oauth }⟩, true)
      else (st, true)

/-- The cookie refresh step of the poll tick (step 2 inside
`if (isStale)`), guarded by `!remoteUsage && cookie && orgId`. -/
def cookieRefresh (env : TickEnv) (config : ClaudeHueConfig) (st : DaemonState) :
    DaemonState × Bool :=
  match st.remoteUsage with
  | some _ => (st, false)
  | none =>
    if cookieConfigured config then
      match env.cookieFetch with
      | .error _ => (st, true)
      | .ok result =>
        if result.limits.length > 0 then
          (⟨some { percentage := result.highestPercent
                   details := limitsDetails result.limits
                   receivedAt := env.now
                   source := .api }⟩, true)
        else (st, true)
    else (st, false)

/-- Outcome of one scheduler poll tick. -/
structure TickResult where
  state : DaemonState
  oauthTried : Bool
  cookieTried : Bool
  applied : Resolved
  logAfter : Option (List Char)
deriving Repr

/-- The tick's `isStale` test (`src/daemon/daemon.ts`, `setInterval`
body): the snapshot is absent or older than `USAGE_STALE_MS`. -/
def snapshotStale (env : TickEnv) (st : DaemonState) : Bool :=
  match st.remoteUsage with
  | none => true
  | some r => env.now - r.receivedAt > USAGE_STALE_MS

/-- One poll-timer tick, continued: the refresh attempts and the apply. -/
def pollTick (env : TickEnv) (config : ClaudeHueConfig) (st : DaemonState) : TickResult :=
  let isStale := snapshotStale env st
  let afterOauth := if isStale then oauthRefresh env st else (st, false)
  let afterCookie :=
    if isStale then cookieRefresh env config afterOauth.1 else (afterOauth.1, false)
  let applied := getUsagePercentage env config afterCookie.1
  { state := afterCookie.1
    oauthTried := afterOauth.2
    cookieTried := afterCookie.2
    applied := applied
    logAfter := trimLog env.parseTs env.logFile config.usage.windowMs env.now }

/-- The `POST /usage` handler core: a parseable payload replaces the
snapshot with an extension-sourced one received now (then the light is
updated); an unparseable one is rejected with status 400. -/
def pushReceive (now : ℤ) (body : JsonValue) (st : DaemonState) : DaemonState × Bool :=
  match parseExtensionUsage body with
  | some parsed =>
    (⟨some { percentage := parsed.percentage
             details := parsed.details
             receivedAt := now
             source := .extension }⟩, true)
  | none => (st, false)

/-- The `GET /status` response body. -/
structure StatusResponse where
  running : Bool
  extensionConnected : Bool
  lastUpdate : Option ℤ
deriving Repr, DecidableEq

/-- The `GET /status` handler (`src/daemon/daemon.ts`). -/
def statusResponse (st : DaemonState) : StatusResponse :=
  { running := true
    extensionConnected := st.remoteUsage.isSome
    lastUpdate := st.remoteUsage.map (fun r => r.receivedAt) }

/-! ## `src/daemon/daemon.ts` — PID-marker lifecycle

The PID file is `Option String`; liveness of a process id
(`process.kill(pid, 0)` not throwing) is the oracle `alive`. -/

/-- `parseInt(s, 10)`: leading whitespace, optional sign, decimal digits;
`none` where JavaScript yields `NaN`. -/
def jsParseInt (s : String) : Option ℤ :=
  let cs := s.toList.dropWhile (fun c => c.isWhitespace)
  let signed : ℤ × List Char :=
    match cs with
    | '-' :: r => (-1, r)
    | '+' :: r => (1, r)
    | _ => (1, cs)
  let ds := signed.2.takeWhile (fun c => c.isDigit)
  if ds = [] then none else some (signed.1 * (digitsVal ds : ℤ))

/-- `String.prototype.trim` on strings (ASCII whitespace). -/
def jsTrim (s : String) : String := String.mk (trimChars s.toList)

/-- `readPid` (`src/daemon/daemon.ts`). -/
def readPid (pidFile : Option String) : Option ℤ :=
  match pidFile with
  | none => none
  | some content => jsParseInt (jsTrim content)

/-- `isDaemonRunning` (`src/daemon/daemon.ts`): returns the check's result
and the PID file afterwards (a dead PID's stale marker is removed). -/
def isDaemonRunning (pidFile : Option String) (alive : ℤ → Bool) :
    Bool × Option String :=
  match readPid pidFile with
  | none => (false, pidFile)
  | some pid => if alive pid then (true, pidFile) else (false, none)

/-- Outcome of the `startDaemon` entry check. -/
structure StartOutcome where
  exitCode : Option ℕ
  pidFile : Option String
  started : Bool
deriving Repr, DecidableEq

/-- The entry of `startDaemon` (lines 290–299): refuse with exit code 1
when a daemon is running, otherwise write this process's PID and proceed. -/
def startDaemonEntry (pidFile : Option String) (alive : ℤ → Bool) (selfPid : ℤ) :
    StartOutcome :=
  let check := isDaemonRunning pidFile alive
  if check.1 then { exitCode := some 1, pidFile := check.2, started := false }
  else { exitCode := none, pidFile := some (toString selfPid), started := true }

/-- "No data from this source" for the OAuth adapter on one tick: no
token, a throwing fetch, or a fetch with zero limits. -/
def oauthYieldsNoData (env : TickEnv) : Bool :=
  match env.oauthToken with
  | none => true
  | some _ =>
    match env.oauthFetch with
    | .error _ => true
    | .ok r => r.limits.isEmpty

/-- "No data from this source" for the cookie adapter on one tick. -/
def cookieYieldsNoData (env : TickEnv) : Bool :=
  match env.cookieFetch with
  | .error _ => true
  | .ok r => r.limits.isEmpty

/-! ## Helper lemmas -/

/- Rational arithmetic is `@[irreducible]` in the library; make it
semireducible here so concrete runs of the embedding evaluate by `decide`. -/
unseal Rat.mul Rat.add Rat.inv Rat.sub

theorem clamp_of_nonpos {t : ℚ} (h : t ≤ 0) : max 0 (min 1 t) = 0 := by
  have h1 : min 1 t = t := min_eq_right (h.trans (by norm_num))
  rw [h1, max_eq_left h]

theorem clamp_of_one_le {t : ℚ} (h : 1 ≤ t) : max 0 (min 1 t) = 1 := by
  have h1 : min 1 t = 1 := min_eq_left h
  rw [h1]
  norm_num

theorem jsRound_intCast (z : ℤ) : jsRound (z : ℚ) = z := by
  unfold jsRound
  rw [add_comm, Int.floor_add_int]
  norm_num

theorem jsMaxList_le {l : List ℚ} {x : ℚ} (hx : x ∈ l) : x ≤ jsMaxList l := by
  induction l with
  | nil => cases hx
  | cons a rest ih =>
    match rest, hx with
    | [], hx =>
      simp only [List.mem_singleton] at hx
      simp [jsMaxList, hx]
    | b :: rest, hx =>
      rcases List.mem_cons.mp hx with h | h
      · subst h
        exact le_max_left _ _
      · exact le_trans (ih h) (le_max_right _ _)

theorem jsMaxList_mem {l : List ℚ} (h : l ≠ []) : jsMaxList l ∈ l := by
  induction l with
  | nil => exact absurd rfl h
  | cons a rest ih =>
    match rest with
    | [] => simp [jsMaxList]
    | b :: rest =>
      have hmem := ih (by simp)
      rcases max_choice a (jsMaxList (b :: rest)) with hc | hc <;>
        simp only [jsMaxList, hc]
      · exact List.mem_cons_self _ _
      · exact List.mem_cons_of_mem _ hmem

theorem jsMaxList_map_div (l : List ℚ) (h : l ≠ []) :
    jsMaxList (l.map (fun x => x / 100)) = jsMaxList l / 100 := by
  induction l with
  | nil => exact absurd rfl h
  | cons a rest ih =>
    match rest with
    | [] => simp [jsMaxList]
    | b :: rest =>
      have := ih (by simp)
      simp only [List.map_cons, jsMaxList] at this ⊢
      rw [this, max_div_div_right (by norm_num : (0:ℚ) ≤ 100)]

/-! ## C5 — interpolation endpoints, midpoint and clamping -/

/-- C5 (counterexample): brightness interpolation at `t = 0.5` between
`0` and `5` yields the rounded value `3`, not the arithmetic midpoint
`5/2`, so the claim's midpoint clause fails for the brightness component;
likewise `t = 0` does not return a fractional start value exactly
(`interpolateBrightness (5/2) 4 0 = 3 ≠ 5/2`). -/
theorem interpolateBrightness_midpoint_counterexample :
    interpolateBrightness 0 5 (1/2) = 3 ∧ ¬ ((3 : ℚ) = (0 + 5) / 2) ∧
    interpolateBrightness (5/2) 4 0 = 3 ∧ ¬ ((3 : ℚ) = 5/2) := by
  refine ⟨by decide, by norm_num, by decide, by norm_num⟩

/-- C5 (amended): chromaticity interpolation is exact at `t = 0`, `t = 1`
and the midpoint, and clamps arguments outside `[0, 1]` to the nearer
bound; brightness interpolation with integer endpoints is exact at
`t = 0` and `t = 1` and clamps likewise, but its value at `t = 0.5` is
the half-up rounding of the arithmetic midpoint. -/
theorem interpolate_clamped_linear (s e : CieXY) (bs be : ℤ) (t : ℚ) :
    interpolateColor s e 0 = s ∧
    interpolateColor s e 1 = e ∧
    interpolateColor s e (1/2) = ⟨(s.x + e.x) / 2, (s.y + e.y) / 2⟩ ∧
    (t ≤ 0 → interpolateColor s e t = s) ∧
    (1 ≤ t → interpolateColor s e t = e) ∧
    interpolateBrightness (bs : ℚ) (be : ℚ) 0 = bs ∧
    interpolateBrightness (bs : ℚ) (be : ℚ) 1 = be ∧
    interpolateBrightness (bs : ℚ) (be : ℚ) (1/2) = jsRound (((bs : ℚ) + (be : ℚ)) / 2) ∧
    (t ≤ 0 → interpolateBrightness (bs : ℚ) (be : ℚ) t = bs) ∧
    (1 ≤ t → interpolateBrightness (bs : ℚ) (be : ℚ) t = be) := by
  have h0 : max (0:ℚ) (min 1 0) = 0 := clamp_of_nonpos le_rfl
  have h1 : max (0:ℚ) (min 1 1) = 1 := clamp_of_one_le le_rfl
  have hhalf : max (0:ℚ) (min 1 (1/2)) = 1/2 := by
    rw [min_eq_right (by norm_num : (1:ℚ)/2 ≤ 1), max_eq_right (by norm_num : (0:ℚ) ≤ 1/2)]
  refine ⟨?_, ?_, ?_, fun ht => ?_, fun ht => ?_, ?_, ?_, ?_, fun ht => ?_, fun ht => ?_⟩
  · simp only [interpolateColor, h0, mul_zero, add_zero]
  · simp only [interpolateColor, h1, mul_one]
    cases s; cases e
    simp only [CieXY.mk.injEq]
    constructor <;> ring
  · simp only [interpolateColor, hhalf]
    cases s; cases e
    simp only [CieXY.mk.injEq]
    constructor <;> ring
  · simp only [interpolateColor, clamp_of_nonpos ht, mul_zero, add_zero]
  · simp only [interpolateColor, clamp_of_one_le ht, mul_one]
    cases s; cases e
    simp only [CieXY.mk.injEq]
    constructor <;> ring
  · simp only [interpolateBrightness, h0, mul_zero, add_zero, jsRound_intCast]
  · have : (bs : ℚ) + ((be : ℚ) - bs) * 1 = be := by ring
    simp only [interpolateBrightness, h1, this, jsRound_intCast]
  · have : (bs : ℚ) + ((be : ℚ) - bs) * (1/2) = ((bs : ℚ) + be) / 2 := by ring
    simp only [interpolateBrightness, hhalf, this]
  · simp only [interpolateBrightness, clamp_of_nonpos ht, mul_zero, add_zero, jsRound_intCast]
  · have : (bs : ℚ) + ((be : ℚ) - bs) * 1 = be := by ring
    simp only [interpolateBrightness, clamp_of_one_le ht, this, jsRound_intCast]

/-- C5 (witness): the amended theorem applied at `s = (0,0)`, `e = (1,1)`,
brightness endpoints `0` and `5`, and the out-of-range parameter `-1/2`. -/
theorem interpolate_clamped_linear_witness :
    interpolateColor ⟨0, 0⟩ ⟨1, 1⟩ (-1/2) = ⟨0, 0⟩ ∧
    interpolateBrightness (0 : ℚ) (5 : ℚ) (-1/2) = 0 :=
  ⟨(interpolate_clamped_linear ⟨0, 0⟩ ⟨1, 1⟩ 0 5 (-1/2)).2.2.2.1 (by norm_num),
   by
    have := (interpolate_clamped_linear ⟨0, 0⟩ ⟨1, 1⟩ 0 5 (-1/2)).2.2.2.2.2.2.2.2.1
      (by norm_num)
    simpa using this⟩

/-! ## C4 — local fallback calculator -/

/-- C4: for every window, positive budget and log content, the local
fallback's percentage lies in `[0, 1]` and equals
`min(count / maxPrompts, 1)` exactly, where `count` is the number of
non-empty lines whose parsed timestamp `ts` satisfies
`now - ts ≤ windowMs`; a missing or empty file yields count 0 and
percentage 0. -/
theorem calculateUsage_spec (parseTs : List Char → Option ℤ) (file : Option (List Char))
    (windowMs : ℤ) (maxPrompts : ℕ) (now : ℤ) (hm : 0 < maxPrompts) :
    (0 ≤ (calculateUsage parseTs file windowMs maxPrompts now).percentage ∧
      (calculateUsage parseTs file windowMs maxPrompts now).percentage ≤ 1) ∧
    (calculateUsage parseTs file windowMs maxPrompts now).percentage =
      min (((calculateUsage parseTs file windowMs maxPrompts now).count : ℚ) /
        (maxPrompts : ℚ)) 1 ∧
    (∀ content, file = some content →
      (calculateUsage parseTs file windowMs maxPrompts now).count =
        ((splitNl content).filter (fun l => l ≠ [])).countP
          (fun l => (parseTs (trimChars l)).any (fun ts => decide (now - ts ≤ windowMs)))) ∧
    (file = none → calculateUsage parseTs file windowMs maxPrompts now = ⟨0, 0⟩) ∧
    (file = some [] → calculateUsage parseTs file windowMs maxPrompts now = ⟨0, 0⟩) := by
  have hpred : ∀ l : List Char,
      lineRecent parseTs (now - windowMs) l =
        (parseTs (trimChars l)).any (fun ts => decide (now - ts ≤ windowMs)) := by
    intro l
    unfold lineRecent
    cases parseTs (trimChars l) with
    | none => rfl
    | some ts =>
      simp only [Option.any_some]
      exact decide_eq_decide.mpr (by omega)
  cases file with
  | none =>
    refine ⟨⟨?_, ?_⟩, ?_, ?_, ?_, ?_⟩
    · simp [calculateUsage]
    · simp [calculateUsage]
    · simp [calculateUsage, zero_div]
    · intro c h
      cases h
    · intro _
      rfl
    · intro h
      cases h
  | some content =>
    have hq : (0:ℚ) ≤ ((calculateUsage parseTs (some content) windowMs maxPrompts now).count : ℚ) /
        (maxPrompts : ℚ) :=
      div_nonneg (by positivity) (by positivity)
    refine ⟨⟨?_, ?_⟩, ?_, ?_, ?_, ?_⟩
    · exact le_min hq (by norm_num)
    · exact min_le_right _ _
    · rfl
    · intro c hc
      cases hc
      simp only [calculateUsage, List.countP_eq_length_filter]
      congr 1
      apply List.filter_congr
      intro l _
      exact hpred l
    · intro h
      cases h
    · intro h
      cases h
      simp [calculateUsage, splitNl, lineRecent]

/-- C4 (witness): the specification applied to a concrete four-line log
(timestamps 100, 200, 300 and one malformed line) with window 150,
budget 2 and now = 300: two entries are in the window and the
percentage caps at 1. -/
theorem calculateUsage_spec_witness :
    0 < 2 ∧
    calculateUsage (fun l => jsParseInt (String.mk l))
      (some "100\n200\nbad\n300\n".toList) 150 2 300 = ⟨2, 1⟩ ∧
    (calculateUsage (fun l => jsParseInt (String.mk l))
        (some "100\n200\nbad\n300\n".toList) 150 2 300).percentage =
      min (((calculateUsage (fun l => jsParseInt (String.mk l))
        (some "100\n200\nbad\n300\n".toList) 150 2 300).count : ℚ) / ((2:ℕ) : ℚ)) 1 :=
  ⟨by norm_num, by decide,
   (calculateUsage_spec (fun l => jsParseInt (String.mk l))
      (some "100\n200\nbad\n300\n".toList) 150 2 300 (by norm_num)).2.1⟩

/-! ## C8 — trim idempotence -/

theorem splitNl_ne_nil (cs : List Char) : splitNl cs ≠ [] := by
  cases cs with
  | nil => simp [splitNl]
  | cons c cs =>
    by_cases hc : c = '\n'
    · simp [splitNl, hc]
    · simp only [splitNl, if_neg hc]
      cases h : splitNl cs with
      | nil => simp
      | cons a as => simp

theorem splitNl_no_newline (cs : List Char) : ∀ l ∈ splitNl cs, '\n' ∉ l := by
  induction cs with
  | nil =>
    intro l hl
    simp only [splitNl, List.mem_singleton] at hl
    simp [hl]
  | cons c cs ih =>
    intro l hl
    by_cases hc : c = '\n'
    · simp only [splitNl, if_pos hc] at hl
      rcases List.mem_cons.mp hl with h | h
      · simp [h]
      · exact ih l h
    · simp only [splitNl, if_neg hc] at hl
      cases hsp : splitNl cs with
      | nil => exact absurd hsp (splitNl_ne_nil cs)
      | cons a as =>
        rw [hsp] at hl
        rcases List.mem_cons.mp hl with h | h
        · subst h
          intro hmem
          rcases List.mem_cons.mp hmem with h2 | h2
          · exact hc h2.symm
          · exact ih a (hsp ▸ List.mem_cons_self a as) h2
        · exact ih l (hsp ▸ List.mem_cons_of_mem a h)

theorem splitNl_append_newline (l rest : List Char) (h : '\n' ∉ l) :
    splitNl (l ++ '\n' :: rest) = l :: splitNl rest := by
  induction l with
  | nil => simp [splitNl]
  | cons c cs ih =>
    have hc : ¬ (c = '\n') := fun hh => h (by simp [hh])
    have h2 : '\n' ∉ cs := fun hh => h (List.mem_cons_of_mem c hh)
    rw [List.cons_append]
    simp only [splitNl, if_neg hc, ih h2]

theorem filter_splitNl_serialize (ls : List (List Char))
    (hne : ∀ l ∈ ls, l ≠ []) (hnl : ∀ l ∈ ls, '\n' ∉ l) :
    (splitNl (joinNl ls ++ if ls.isEmpty then [] else ['\n'])).filter
      (fun l => l ≠ []) = ls := by
  induction ls with
  | nil => simp [joinNl, splitNl]
  | cons l ls ih =>
    cases ls with
    | nil =>
      have : joinNl [l] ++ ['\n'] = l ++ '\n' :: [] := by simp [joinNl]
      simp only [List.isEmpty_cons, if_neg]
      rw [show (if false = true then ([] : List Char) else ['\n']) = ['\n'] from rfl]
      rw [this, splitNl_append_newline l [] (hnl l (List.mem_singleton.mpr rfl))]
      simp [splitNl, hne l (List.mem_singleton.mpr rfl)]
    | cons l2 ls2 =>
      have hser : joinNl (l :: l2 :: ls2) ++ ['\n'] =
          l ++ '\n' :: (joinNl (l2 :: ls2) ++ ['\n']) := by
        simp [joinNl]
      simp only [List.isEmpty_cons]
      rw [show (if false = true then ([] : List Char) else ['\n']) = ['\n'] from rfl]
      rw [hser, splitNl_append_newline l _ (hnl l (List.mem_cons_self _ _))]
      have hrest := ih (fun x hx => hne x (List.mem_cons_of_mem l hx))
        (fun x hx => hnl x (List.mem_cons_of_mem l hx))
      simp only [List.isEmpty_cons] at hrest
      rw [show (if false = true then ([] : List Char) else ['\n']) = ['\n'] from rfl] at hrest
      simp only [List.filter_cons]
      rw [if_pos (by simp [hne l (List.mem_cons_self _ _)])]
      rw [hrest]

/-- C8: trimming is idempotent — for a fixed reference time, re-trimming
the file `trimLog` just wrote changes nothing — and trimming a missing
file is a no-op that stays inside the total function. -/
theorem trimLog_idempotent (parseTs : List Char → Option ℤ) (file : Option (List Char))
    (windowMs now : ℤ) :
    trimLog parseTs (trimLog parseTs file windowMs now) windowMs now =
      trimLog parseTs file windowMs now ∧
    trimLog parseTs none windowMs now = none := by
  refine ⟨?_, rfl⟩
  cases file with
  | none => rfl
  | some content =>
    simp only [trimLog]
    have hne : ∀ l ∈ ((splitNl content).filter (fun l => l ≠ [])).filter
        (lineRecent parseTs (now - windowMs * 2)), l ≠ [] := by
      intro l hl
      have h1 := (List.mem_filter.mp hl).1
      have h2 := (List.mem_filter.mp h1).2
      simpa using h2
    have hnl : ∀ l ∈ ((splitNl content).filter (fun l => l ≠ [])).filter
        (lineRecent parseTs (now - windowMs * 2)), '\n' ∉ l := by
      intro l hl
      have h1 := (List.mem_filter.mp (List.mem_filter.mp hl).1).1
      exact splitNl_no_newline content l h1
    rw [filter_splitNl_serialize _ hne hnl, List.filter_filter]
    have : (fun a => lineRecent parseTs (now - windowMs * 2) a &&
        lineRecent parseTs (now - windowMs * 2) a) =
        lineRecent parseTs (now - windowMs * 2) := by
      funext a
      exact Bool.and_self _
    rw [this]

/-! ## C9 — PID-marker singleton enforcement -/

/-- C9: when the PID marker names a live process, a second `start`
refuses with exit code 1, leaves the marker untouched and starts
nothing; when the marker names a dead process, the stale marker is
discarded and startup proceeds, writing this process's PID. -/
theorem startDaemonEntry_singleton (pidFile : Option String) (alive : ℤ → Bool)
    (selfPid pid : ℤ) (hpid : readPid pidFile = some pid) :
    (alive pid = true →
      startDaemonEntry pidFile alive selfPid =
        { exitCode := some 1, pidFile := pidFile, started := false }) ∧
    (alive pid = false →
      startDaemonEntry pidFile alive selfPid =
        { exitCode := none, pidFile := some (toString selfPid), started := true }) := by
  constructor <;> intro h <;> simp [startDaemonEntry, isDaemonRunning, hpid, h]

/-- C9 (witness): a marker naming live PID 123 makes start 999 refuse
without touching the marker; the same marker naming a dead PID lets
start 999 proceed and write its own PID. -/
theorem startDaemonEntry_singleton_witness :
    startDaemonEntry (some " 123 ") (fun p => decide (p = 123)) 999 =
      { exitCode := some 1, pidFile := some " 123 ", started := false } ∧
    startDaemonEntry (some " 123 ") (fun _ => false) 999 =
      { exitCode := none, pidFile := some (toString (999 : ℤ)), started := true } :=
  ⟨(startDaemonEntry_singleton (some " 123 ") (fun p => decide (p = 123)) 999 123
      (by decide)).1 (by decide),
   (startDaemonEntry_singleton (some " 123 ") (fun _ => false) 999 123
      (by decide)).2 rfl⟩

/-! ## C6 — driving percentage policy -/

theorem drivingPercent_spec (limits : List UsageLimit) :
    (∀ l, limits.find? isFiveHourLimit = some l →
      drivingPercent limits = l.percentUsed) ∧
    (limits.find? isFiveHourLimit = none →
      ∀ l, limits.find? isSevenDayLimit = some l →
      drivingPercent limits = l.percentUsed) ∧
    (limits.find? isFiveHourLimit = none →
      limits.find? isSevenDayLimit = none →
      (nonExtraLimits limits = [] → drivingPercent limits = 0) ∧
      (nonExtraLimits limits ≠ [] →
        (∃ l ∈ nonExtraLimits limits, drivingPercent limits = l.percentUsed) ∧
        ∀ l ∈ nonExtraLimits limits, l.percentUsed ≤ drivingPercent limits)) := by
  refine ⟨?_, ?_, ?_⟩
  · intro l h5
    simp [drivingPercent, h5, jsMaxList]
  · intro h5 l h7
    simp [drivingPercent, h5, h7, jsMaxList]
  · intro h5 h7
    constructor
    · intro hempty
      simp [drivingPercent, h5, h7, hempty]
    · intro hne
      have hmapne : ((nonExtraLimits limits).map (fun l => l.percentUsed)) ≠ [] := by
        simpa using hne
      have hdp : drivingPercent limits =
          jsMaxList ((nonExtraLimits limits).map (fun l => l.percentUsed)) := by
        have hpos : 0 < (nonExtraLimits limits).length := List.length_pos.mpr hne
        simp [drivingPercent, h5, h7, hpos]
      constructor
      · have hmem := jsMaxList_mem hmapne
        rw [List.mem_map] at hmem
        obtain ⟨l, hl, hval⟩ := hmem
        exact ⟨l, hl, by rw [hdp, hval]⟩
      · intro l hl
        rw [hdp]
        exact jsMaxList_le (List.mem_map_of_mem _ hl)

/-- C6: the driving percentage of a parsed remote response equals the
first five_hour limit's percentage when one exists; else the first
seven_day limit's; else the maximum across non-"extra" limits, and 0
when no such limit exists. -/
theorem parseUsageResponse_driving (raw : JsonValue) :
    (∀ l, (parseUsageResponse raw).limits.find? isFiveHourLimit = some l →
      (parseUsageResponse raw).highestPercent = l.percentUsed) ∧
    ((parseUsageResponse raw).limits.find? isFiveHourLimit = none →
      ∀ l, (parseUsageResponse raw).limits.find? isSevenDayLimit = some l →
      (parseUsageResponse raw).highestPercent = l.percentUsed) ∧
    ((parseUsageResponse raw).limits.find? isFiveHourLimit = none →
      (parseUsageResponse raw).limits.find? isSevenDayLimit = none →
      (nonExtraLimits (parseUsageResponse raw).limits = [] →
        (parseUsageResponse raw).highestPercent = 0) ∧
      (nonExtraLimits (parseUsageResponse raw).limits ≠ [] →
        (∃ l ∈ nonExtraLimits (parseUsageResponse raw).limits,
          (parseUsageResponse raw).highestPercent = l.percentUsed) ∧
        ∀ l ∈ nonExtraLimits (parseUsageResponse raw).limits,
          l.percentUsed ≤ (parseUsageResponse raw).highestPercent)) :=
  drivingPercent_spec (collectLimits raw)

/-- C6 (witness): with both a seven_day (80%) and a five_hour (20%)
limit, the driving percentage is the five_hour limit's 20%. -/
theorem parseUsageResponse_driving_witness :
    (parseUsageResponse (.obj [("seven_day", .obj [("utilization", .num 80)]),
        ("five_hour", .obj [("utilization", .num 20)])])).highestPercent = 1/5 := by
  have h := (parseUsageResponse_driving (.obj [("seven_day", .obj [("utilization", .num 80)]),
      ("five_hour", .obj [("utilization", .num 20)])])).1
    ⟨"five_hour", 20/100, none⟩
  rw [h (by rfl)]
  norm_num

/-! ## C7 — fresh push snapshot wins without network work -/

/-- C7: while a push-delivered snapshot is younger than the 5-minute
staleness threshold, a poll tick invokes neither the OAuth nor the
cookie adapter, leaves the snapshot unchanged, and resolves to the push
snapshot's percentage, source and details. -/
theorem fresh_push_tick_uses_push (env : TickEnv) (config : ClaudeHueConfig)
    (st : DaemonState) (r : RemoteUsage) (hst : st.remoteUsage = some r)
    (hsrc : r.source = .extension)
    (hfresh : env.now - r.receivedAt < USAGE_STALE_MS) :
    (pollTick env config st).oauthTried = false ∧
    (pollTick env config st).cookieTried = false ∧
    (pollTick env config st).state = st ∧
    (pollTick env config st).applied =
      { percentage := r.percentage, source := .extension, details := r.details } := by
  have hns : snapshotStale env st = false := by
    simp [snapshotStale, hst]
    omega
  refine ⟨?_, ?_, ?_, ?_⟩ <;>
    simp [pollTick, hns, getUsagePercentage, hst, hfresh, hsrc]

/-- C7 (witness): the theorem applied to a concrete state holding a
100-second-old push snapshot, with both adapters available and a cookie
configured. -/
theorem fresh_push_tick_uses_push_witness :
    (pollTick ⟨100000, some "tok", .ok ⟨[⟨"five_hour", 1, none⟩], 1⟩,
        .ok ⟨[⟨"five_hour", 1, none⟩], 1⟩, none, fun _ => none⟩
      ⟨⟨45, 18000000⟩, some ⟨some "sessionKey=k", some "org"⟩⟩
      ⟨some ⟨3/10, "five_hour: 30%", 0, .extension⟩⟩).oauthTried = false ∧
    (pollTick ⟨100000, some "tok", .ok ⟨[⟨"five_hour", 1, none⟩], 1⟩,
        .ok ⟨[⟨"five_hour", 1, none⟩], 1⟩, none, fun _ => none⟩
      ⟨⟨45, 18000000⟩, some ⟨some "sessionKey=k", some "org"⟩⟩
      ⟨some ⟨3/10, "five_hour: 30%", 0, .extension⟩⟩).applied =
      { percentage := 3/10, source := .extension, details := "five_hour: 30%" } := by
  have h := fresh_push_tick_uses_push
    ⟨100000, some "tok", .ok ⟨[⟨"five_hour", 1, none⟩], 1⟩,
      .ok ⟨[⟨"five_hour", 1, none⟩], 1⟩, none, fun _ => none⟩
    ⟨⟨45, 18000000⟩, some ⟨some "sessionKey=k", some "org"⟩⟩
    ⟨some ⟨3/10, "five_hour: 30%", 0, .extension⟩⟩
    ⟨3/10, "five_hour: 30%", 0, .extension⟩ rfl rfl (by decide)
  exact ⟨h.1, h.2.2.2⟩

/-! ## C1 — stale-snapshot refresh chain (code bug at the cookie step) -/

/-- C1 (the code at the failing input): with a 6-minute-old (stale)
snapshot, a present but failing OAuth fetch, and configured cookie
credentials whose fetch would succeed, the poll tick tries OAuth but
never tries the cookie adapter — the `!remoteUsage` guard sees the stale
snapshot — and applies a local-sourced value, contradicting the claim
that the cookie adapter is tried whenever credentials are configured. -/
theorem stale_snapshot_tick_skips_cookie :
    cookieConfigured ⟨⟨45, 18000000⟩, some ⟨some "sessionKey=k", some "org"⟩⟩ = true ∧
    (pollTick ⟨360000, some "tok", .error (), .ok ⟨[⟨"five_hour", 1/4, none⟩], 1/4⟩,
        none, fun _ => none⟩
      ⟨⟨45, 18000000⟩, some ⟨some "sessionKey=k", some "org"⟩⟩
      ⟨some ⟨1/5, "five_hour: 20%", 0, .oauth⟩⟩).oauthTried = true ∧
    (pollTick ⟨360000, some "tok", .error (), .ok ⟨[⟨"five_hour", 1/4, none⟩], 1/4⟩,
        none, fun _ => none⟩
      ⟨⟨45, 18000000⟩, some ⟨some "sessionKey=k", some "org"⟩⟩
      ⟨some ⟨1/5, "five_hour: 20%", 0, .oauth⟩⟩).cookieTried = false ∧
    (pollTick ⟨360000, some "tok", .error (), .ok ⟨[⟨"five_hour", 1/4, none⟩], 1/4⟩,
        none, fun _ => none⟩
      ⟨⟨45, 18000000⟩, some ⟨some "sessionKey=k", some "org"⟩⟩
      ⟨some ⟨1/5, "five_hour: 20%", 0, .oauth⟩⟩).state =
      ⟨some ⟨1/5, "five_hour: 20%", 0, .oauth⟩⟩ ∧
    (pollTick ⟨360000, some "tok", .error (), .ok ⟨[⟨"five_hour", 1/4, none⟩], 1/4⟩,
        none, fun _ => none⟩
      ⟨⟨45, 18000000⟩, some ⟨some "sessionKey=k", some "org"⟩⟩
      ⟨some ⟨1/5, "five_hour: 20%", 0, .oauth⟩⟩).applied.source = .local := by
  exact ⟨by decide, by decide, by decide, by decide, by decide⟩

/-! ## C10 — resolution does not write the snapshot -/

/-- C10: on a tick where both adapters yield no data, the stored
snapshot is unchanged (resolution never writes it), the applied value is
exactly the resolver's output on the unchanged state, the status
endpoint's fields still reflect the last remote receipt, and when the
stored snapshot is stale the applied source is the local fallback. -/
theorem resolve_preserves_snapshot (env : TickEnv) (config : ClaudeHueConfig)
    (st : DaemonState) (hoauth : oauthYieldsNoData env = true)
    (hcookie : cookieYieldsNoData env = true) :
    (pollTick env config st).state = st ∧
    (pollTick env config st).applied = getUsagePercentage env config st ∧
    statusResponse (pollTick env config st).state = statusResponse st ∧
    (∀ r, st.remoteUsage = some r → USAGE_STALE_MS ≤ env.now - r.receivedAt →
      (pollTick env config st).applied.source = .local) := by
  have h1 : (oauthRefresh env st).1 = st := by
    cases htok : env.oauthToken with
    | none => simp [oauthRefresh, htok]
    | some t =>
      cases hf : env.oauthFetch with
      | error e => simp [oauthRefresh, htok, hf]
      | ok res =>
        simp only [oauthYieldsNoData, htok, hf] at hoauth
        have hres : res.limits = [] := by simpa using hoauth
        simp [oauthRefresh, htok, hf, hres]
  have h2 : ∀ s : DaemonState, (cookieRefresh env config s).1 = s := by
    intro s
    cases hru : s.remoteUsage with
    | some r => simp [cookieRefresh, hru]
    | none =>
      cases hcc : cookieConfigured config with
      | false => simp [cookieRefresh, hru, hcc]
      | true =>
        cases hf : env.cookieFetch with
        | error e => simp [cookieRefresh, hru, hcc, hf]
        | ok res =>
          simp only [cookieYieldsNoData, hf] at hcookie
          have hres : res.limits = [] := by simpa using hcookie
          simp [cookieRefresh, hru, hcc, hf, hres]
  have hstate : (pollTick env config st).state = st := by
    cases hb : snapshotStale env st <;> simp [pollTick, hb, h1, h2]
  have happ : (pollTick env config st).applied = getUsagePercentage env config st := by
    cases hb : snapshotStale env st <;> simp [pollTick, hb, h1, h2]
  refine ⟨hstate, happ, by rw [hstate], ?_⟩
  intro r hr hstale
  rw [happ]
  have : ¬ (env.now - r.receivedAt < USAGE_STALE_MS) := by omega
  simp [getUsagePercentage, hr, this]

/-- C10 (witness): a tick over a 10-minute-old cookie snapshot with no
OAuth token and a throwing cookie fetch leaves the snapshot (and the
status fields) unchanged and applies the local fallback. -/
theorem resolve_preserves_snapshot_witness :
    (pollTick ⟨600000, none, .error (), .error (), none, fun _ => none⟩
      ⟨⟨45, 18000000⟩, some ⟨some "sessionKey=k", some "org"⟩⟩
      ⟨some ⟨1/5, "five_hour: 20%", 0, .api⟩⟩).state =
      ⟨some ⟨1/5, "five_hour: 20%", 0, .api⟩⟩ ∧
    statusResponse (pollTick ⟨600000, none, .error (), .error (), none, fun _ => none⟩
      ⟨⟨45, 18000000⟩, some ⟨some "sessionKey=k", some "org"⟩⟩
      ⟨some ⟨1/5, "five_hour: 20%", 0, .api⟩⟩).state =
      statusResponse ⟨some ⟨1/5, "five_hour: 20%", 0, .api⟩⟩ ∧
    (pollTick ⟨600000, none, .error (), .error (), none, fun _ => none⟩
      ⟨⟨45, 18000000⟩, some ⟨some "sessionKey=k", some "org"⟩⟩
      ⟨some ⟨1/5, "five_hour: 20%", 0, .api⟩⟩).applied.source = .local := by
  have h := resolve_preserves_snapshot
    ⟨600000, none, .error (), .error (), none, fun _ => none⟩
    ⟨⟨45, 18000000⟩, some ⟨some "sessionKey=k", some "org"⟩⟩
    ⟨some ⟨1/5, "five_hour: 20%", 0, .api⟩⟩ rfl rfl
  exact ⟨h.1, h.2.2.1, h.2.2.2 ⟨1/5, "five_hour: 20%", 0, .api⟩ rfl (by decide)⟩

/-! ## C3 — stored percentage range -/

/-- C3 (counterexample): a pushed payload with `utilization: 150` is
stored as a snapshot whose percentage is 3/2, outside [0,1]. -/
theorem snapshot_range_counterexample :
    (pushReceive 0 (.obj [("a", .obj [("utilization", .num 150)])]) ⟨none⟩).1.remoteUsage =
      some ⟨3/2, "a: 150%", 0, .extension⟩ ∧
    ¬ ((3:ℚ)/2 ≤ 1) :=
  ⟨by decide, by norm_num⟩

/-- C3 (amended): snapshot percentages lie in [0,1] whenever every raw
utilization-like value of the payload lies in [0,100]: the push parser's
stored percentage, a remote-parser limit's normalized percentage, and
the driving percentage over limits already in [0,1] all lie in [0,1]
under that hypothesis (a raw value above 100 escapes the interval, as
the counterexample shows). -/
theorem snapshot_percentage_range
    (fields : List (String × JsonValue)) (r : ParsedUsage)
    (hr : parseExtensionUsage (.obj fields) = some r)
    (hraw : ∀ kv ∈ fields, ∀ f, kv.2 = JsonValue.obj f →
      ∀ q, extRawPercent f = some q → 0 ≤ q ∧ q ≤ 100)
    (entry : List (String × JsonValue)) (fb : Option String) (l : UsageLimit)
    (hl : parseUsageEntry entry fb = some l)
    (hq : ∀ q, apiRawPercent entry = some q → 0 ≤ q ∧ q ≤ 100)
    (ls : List UsageLimit) (hls : ∀ m ∈ ls, 0 ≤ m.percentUsed ∧ m.percentUsed ≤ 1) :
    (0 ≤ r.percentage ∧ r.percentage ≤ 1) ∧
    (0 ≤ l.percentUsed ∧ l.percentUsed ≤ 1) ∧
    (0 ≤ drivingPercent ls ∧ drivingPercent ls ≤ 1) := by
  refine ⟨?_, ?_, ?_⟩
  · -- push parser
    have hpct : ∀ e ∈ extEntries fields, 0 ≤ e.pct ∧ e.pct ≤ 100 := by
      intro e he
      rw [extEntries, List.mem_filterMap] at he
      obtain ⟨kv, hkv, hfe⟩ := he
      cases hv : kv.2 <;> rw [hv] at hfe <;> try cases hfe
      case obj v =>
        obtain ⟨raw, hrw, he2⟩ := Option.map_eq_some'.mp hfe
        have hb := hraw kv hkv v hv raw hrw
        subst he2
        by_cases hgt : raw > 1
        · simpa [hgt] using hb
        · simp only [hgt, if_false]
          constructor
          · exact mul_nonneg hb.1 (by norm_num)
          · push_neg at hgt
            nlinarith [hb.1, hgt]
    simp only [parseExtensionUsage, extFields] at hr
    by_cases hemp : (extEntries fields).isEmpty
    · simp [hemp] at hr
    · simp only [hemp, Bool.false_eq_true, if_false] at hr
      have hne : (extEntries fields).map (fun e => e.pct) ≠ [] := by
        intro hmapnil
        rw [List.map_eq_nil_iff] at hmapnil
        rw [hmapnil] at hemp
        exact hemp rfl
      have hm := jsMaxList_mem hne
      rw [List.mem_map] at hm
      obtain ⟨e, he, hval⟩ := hm
      have hb := hpct e he
      have hp := congrArg ParsedUsage.percentage (Option.some.inj hr)
      dsimp only at hp
      rw [← hp]
      refine ⟨div_nonneg ?_ (by norm_num), ?_⟩
      · rw [← hval]
        exact hb.1
      · rw [div_le_one (by norm_num : (0:ℚ) < 100), ← hval]
        exact hb.2
  · -- remote-adapter entry parser
    rw [parseUsageEntry] at hl
    cases hapi : apiRawPercent entry with
    | none => rw [hapi] at hl; cases hl
    | some raw =>
      rw [hapi] at hl
      have hb := hq raw hapi
      cases hl
      by_cases hgt : raw > 1
      · simp only [hgt, if_true]
        constructor
        · exact div_nonneg hb.1 (by norm_num)
        · rw [div_le_one (by norm_num : (0:ℚ) < 100)]
          exact hb.2
      · push_neg at hgt
        simp only [show ¬ (raw > 1) from not_lt.mpr hgt, if_false]
        exact ⟨hb.1, hgt⟩
  · -- driving percentage over normalized limits
    cases h5 : ls.find? isFiveHourLimit with
    | some p =>
      have := hls p (List.mem_of_find?_eq_some h5)
      rw [(drivingPercent_spec ls).1 p h5]
      exact this
    | none =>
      cases h7 : ls.find? isSevenDayLimit with
      | some p =>
        have := hls p (List.mem_of_find?_eq_some h7)
        rw [(drivingPercent_spec ls).2.1 h5 p h7]
        exact this
      | none =>
        by_cases hne : nonExtraLimits ls = []
        · rw [((drivingPercent_spec ls).2.2 h5 h7).1 hne]
          norm_num
        · obtain ⟨⟨m, hm, hval⟩, _⟩ := ((drivingPercent_spec ls).2.2 h5 h7).2 hne
          have hmls : m ∈ ls := List.mem_of_mem_filter hm
          rw [hval]
          exact hls m hmls

/-- C3 (witness): the amended theorem at a pushed `utilization: 42`
payload, a remote entry with `utilization: 30`, and a single normalized
limit at 50%. -/
theorem snapshot_percentage_range_witness :
    (0 ≤ (ParsedUsage.mk (42/100) "a: 42%").percentage ∧
      (ParsedUsage.mk (42/100) "a: 42%").percentage ≤ 1) ∧
    (0 ≤ (UsageLimit.mk "unknown" (30/100) none).percentUsed ∧
      (UsageLimit.mk "unknown" (30/100) none).percentUsed ≤ 1) ∧
    (0 ≤ drivingPercent [⟨"five_hour", 1/2, none⟩] ∧
      drivingPercent [⟨"five_hour", 1/2, none⟩] ≤ 1) := by
  refine snapshot_percentage_range
    [("a", .obj [("utilization", .num 42)])] ⟨42/100, "a: 42%"⟩ (by decide)
    ?_ [("utilization", .num 30)] none ⟨"unknown", 30/100, none⟩ rfl ?_
    [⟨"five_hour", 1/2, none⟩] ?_
  · intro kv hkv f hf q hq
    simp only [List.mem_singleton] at hkv
    subst hkv
    simp only at hf
    have hf2 : [("utilization", JsonValue.num 42)] = f := JsonValue.obj.inj hf
    subst hf2
    have h42 : extRawPercent [("utilization", JsonValue.num 42)] = some 42 := by decide
    rw [h42] at hq
    cases hq
    norm_num
  · intro q hq
    have h30 : apiRawPercent [("utilization", JsonValue.num 30)] = some 30 := by decide
    rw [h30] at hq
    cases hq
    norm_num
  · intro m hm
    simp only [List.mem_singleton] at hm
    subst hm
    norm_num

/-! ## C2 — push parser vs §4.1 numeric-extraction policy -/

theorem toNumber_getField_allobj (whole : List (String × JsonValue)) (k : String)
    (h : ∀ kv ∈ whole, ∃ f, kv.2 = JsonValue.obj f) :
    toNumber (getField whole k) = none := by
  unfold getField
  cases hf : whole.find? (fun p => p.1 == k) with
  | none => rfl
  | some p =>
    obtain ⟨f, hpf⟩ := h p (List.mem_of_find?_eq_some hf)
    simp [hpf, toNumber]

theorem apiRawPercent_allobj (whole : List (String × JsonValue))
    (h : ∀ kv ∈ whole, ∃ f, kv.2 = JsonValue.obj f) :
    apiRawPercent whole = none := by
  unfold apiRawPercent
  rw [toNumber_getField_allobj whole "utilization" h,
    toNumber_getField_allobj whole "percentUsed" h,
    toNumber_getField_allobj whole "percent_used" h,
    toNumber_getField_allobj whole "percentage" h,
    toNumber_getField_allobj whole "usage_percentage" h]
  rfl

theorem extEntries_type_mem (fields : List (String × JsonValue)) :
    ∀ e ∈ extEntries fields, ∃ kv ∈ fields, e.type = kv.1 := by
  intro e he
  rw [extEntries, List.mem_filterMap] at he
  obtain ⟨kv, hkv, hfe⟩ := he
  cases hv : kv.2 <;> rw [hv] at hfe <;> try cases hfe
  case obj v =>
    obtain ⟨raw, _, he2⟩ := Option.map_eq_some'.mp hfe
    exact ⟨kv, hkv, by rw [← he2]⟩

theorem objLoop_plain (whole fields : List (String × JsonValue))
    (hwhole : ∀ kv ∈ whole, ∃ f, kv.2 = JsonValue.obj f)
    (hplain : ∀ kv ∈ fields, ∃ f, kv.2 = JsonValue.obj f ∧
      (∃ q, getField f "utilization" = some (.num q)) ∧
      getStrField f "type" = none ∧ getStrField f "name" = none ∧
      getStrField f "limit_type" = none) :
    (objLoop whole fields).map (fun l => (l.type, l.percentUsed)) =
      (extEntries fields).map (fun e => (e.type, e.pct / 100)) := by
  have hwnone : parseUsageEntry whole none = none := by
    unfold parseUsageEntry
    rw [apiRawPercent_allobj whole hwhole]
  induction fields with
  | nil => simp [objLoop, extEntries]
  | cons kv rest ih =>
    obtain ⟨f, hf, ⟨q, hq⟩, ht, hn, hlt⟩ := hplain kv (List.mem_cons_self _ _)
    have hrest := ih (fun x hx => hplain x (List.mem_cons_of_mem _ hx))
    have hextraw : extRawPercent f = some q := by
      unfold extRawPercent extGetNum
      rw [hq]
      rfl
    have hapiraw : apiRawPercent f = some q := by
      unfold apiRawPercent toNumber
      rw [hq]
      rfl
    have htype : apiLimitType f (some kv.1) = kv.1 := by
      unfold apiLimitType
      rw [ht, hn, hlt]
      rfl
    have hpe : parseUsageEntry f (some kv.1) =
        some { type := kv.1
               percentUsed := if q > 1 then q / 100 else q
               resetAt := apiResetAt f } := by
      unfold parseUsageEntry
      rw [hapiraw, htype]
    have hnorm : (if q > 1 then q else q * 100) / 100 = if q > 1 then q / 100 else q := by
      by_cases hgt : q > 1
      · simp [hgt]
      · simp only [hgt, if_false]
        field_simp
    obtain ⟨k, v⟩ := kv
    simp only at hf hpe htype
    subst hf
    have hext_cons : extEntries ((k, JsonValue.obj f) :: rest) =
        ⟨k, if q > 1 then q else q * 100, extReset f⟩ :: extEntries rest := by
      simp [extEntries, List.filterMap_cons, hextraw]
    have hobj_cons : objLoop whole ((k, JsonValue.obj f) :: rest) =
        ⟨k, if q > 1 then q / 100 else q, apiResetAt f⟩ :: objLoop whole rest := by
      by_cases hk : k = "percentUsed" ∨ k = "percent_used" ∨ k = "percentage"
      · simp [objLoop, hpe, if_pos hk, hwnone]
      · simp [objLoop, hpe, if_neg hk]
    rw [hext_cons, hobj_cons]
    simp only [List.map_cons, hrest, hnorm]

/-- C2 (counterexample): for the payload
`{five_hour: {utilization: 10}, seven_day: {utilization: 50}}` the push
endpoint's parser stores 1/2 (the maximum across all categories), while
the remote-adapter parser of §4.1 derives 1/10 (the preferred five_hour
category). -/
theorem push_policy_counterexample :
    (parseExtensionUsage (.obj [("five_hour", .obj [("utilization", .num 10)]),
        ("seven_day", .obj [("utilization", .num 50)])])).map (fun r => r.percentage) =
      some (1/2) ∧
    (parseUsageResponse (.obj [("five_hour", .obj [("utilization", .num 10)]),
        ("seven_day", .obj [("utilization", .num 50)])])).highestPercent = 1/10 ∧
    ¬ ((1:ℚ)/2 = 1/10) :=
  ⟨by decide, by decide, by norm_num⟩

/-- C2 (amended): the stored push percentage equals the remote parser's
derived percentage for payloads whose categories all carry a numeric
`utilization` field and no type-overriding fields, provided at least one
category exists, no category name identifies a five_hour or seven_day
window, and none contains "extra" — on such payloads both parsers reduce
to the same normalized maximum. -/
theorem push_matches_api_policy
    (fields : List (String × JsonValue)) (hne : fields ≠ [])
    (hplain : ∀ kv ∈ fields, ∃ f, kv.2 = JsonValue.obj f ∧
      (∃ q, getField f "utilization" = some (.num q)) ∧
      getStrField f "type" = none ∧ getStrField f "name" = none ∧
      getStrField f "limit_type" = none)
    (hkeys : ∀ kv ∈ fields,
      strContains (jsToLower kv.1) "five_hour" = false ∧
      strContains (jsToLower kv.1) "five hour" = false ∧
      strContains (jsToLower kv.1) "seven_day" = false ∧
      strContains (jsToLower kv.1) "seven day" = false ∧
      strContains (jsToLower kv.1) "extra" = false) :
    (parseExtensionUsage (.obj fields)).map (fun r => r.percentage) =
      some ((parseUsageResponse (.obj fields)).highestPercent) := by
  have hmap := objLoop_plain fields fields
    (fun kv hkv => ((hplain kv hkv).imp (fun f hf => hf.1))) hplain
  have hent : extEntries fields ≠ [] := by
    obtain ⟨kv0, rest, hfe⟩ : ∃ kv0 rest, fields = kv0 :: rest := by
      cases fields with
      | nil => exact absurd rfl hne
      | cons a b => exact ⟨a, b, rfl⟩
    obtain ⟨f, hf, ⟨q, hq⟩, -⟩ := hplain kv0 (hfe ▸ List.mem_cons_self _ _)
    have hextraw : extRawPercent f = some q := by
      unfold extRawPercent extGetNum
      rw [hq]
      rfl
    subst hfe
    obtain ⟨k, v⟩ := kv0
    simp only at hf
    subst hf
    simp [extEntries, List.filterMap_cons, hextraw]
  have hlimtype : ∀ l ∈ objLoop fields fields, ∃ kv ∈ fields, l.type = kv.1 := by
    intro l hl
    have hpair : (l.type, l.percentUsed) ∈
        (extEntries fields).map (fun e => (e.type, e.pct / 100)) := by
      rw [← hmap]
      exact List.mem_map_of_mem _ hl
    rw [List.mem_map] at hpair
    obtain ⟨e, he, hpe⟩ := hpair
    obtain ⟨kv, hkv, hket⟩ := extEntries_type_mem fields e he
    have hty := congrArg Prod.fst hpe
    dsimp only at hty
    exact ⟨kv, hkv, by rw [← hty]; exact hket⟩
  have h5 : (objLoop fields fields).find? isFiveHourLimit = none := by
    rw [List.find?_eq_none]
    intro l hl
    obtain ⟨kv, hkv, hket⟩ := hlimtype l hl
    have hk := hkeys kv hkv
    simp [isFiveHourLimit, hket, hk.1, hk.2.1]
  have h7 : (objLoop fields fields).find? isSevenDayLimit = none := by
    rw [List.find?_eq_none]
    intro l hl
    obtain ⟨kv, hkv, hket⟩ := hlimtype l hl
    have hk := hkeys kv hkv
    simp [isSevenDayLimit, hket, hk.2.2.1, hk.2.2.2.1]
  have hextra : nonExtraLimits (objLoop fields fields) = objLoop fields fields := by
    rw [nonExtraLimits, List.filter_eq_self]
    intro l hl
    obtain ⟨kv, hkv, hket⟩ := hlimtype l hl
    have hk := hkeys kv hkv
    simp [hket, hk.2.2.2.2]
  have hsnd : (objLoop fields fields).map (fun l => l.percentUsed) =
      (extEntries fields).map (fun e => e.pct / 100) := by
    have h2 := congrArg (List.map Prod.snd) hmap
    simpa [List.map_map, Function.comp] using h2
  have hlim_ne : objLoop fields fields ≠ [] := by
    intro hnil
    have hlen := congrArg List.length hmap
    rw [hnil] at hlen
    simp only [List.map_nil, List.length_nil, List.length_map] at hlen
    exact hent (List.length_eq_zero.mp hlen.symm)
  have hemp : (extEntries fields).isEmpty = false := by
    cases hcase : extEntries fields with
    | nil => exact absurd hcase hent
    | cons a b => rfl
  have hlhs : (parseExtensionUsage (.obj fields)).map (fun r => r.percentage) =
      some (jsMaxList ((extEntries fields).map (fun e => e.pct)) / 100) := by
    simp [parseExtensionUsage, extFields, hemp]
  have hpos : 0 < (objLoop fields fields).length := List.length_pos.mpr hlim_ne
  have hrhs : (parseUsageResponse (.obj fields)).highestPercent =
      jsMaxList ((objLoop fields fields).map (fun l => l.percentUsed)) := by
    show drivingPercent (objLoop fields fields) = _
    simp [drivingPercent, h5, h7, hextra, hpos]
  rw [hlhs, hrhs, hsnd]
  have hcomp : (extEntries fields).map (fun e => e.pct / 100) =
      ((extEntries fields).map (fun e => e.pct)).map (fun x => x / 100) := by
    rw [List.map_map]
    rfl
  rw [hcomp, jsMaxList_map_div _ (by simpa using hent)]

/-- C2 (amended, witness): the amended theorem at the payload
`{api: {utilization: 30}, opus: {utilization: 60}}` — both parsers
yield 60%. -/
theorem push_matches_api_policy_witness :
    (parseExtensionUsage (.obj [("api", .obj [("utilization", .num 30)]),
        ("opus", .obj [("utilization", .num 60)])])).map (fun r => r.percentage) =
      some ((parseUsageResponse (.obj [("api", .obj [("utilization", .num 30)]),
        ("opus", .obj [("utilization", .num 60)])])).highestPercent) := by
  refine push_matches_api_policy
    [("api", .obj [("utilization", .num 30)]), ("opus", .obj [("utilization", .num 60)])]
    (by simp) ?_ ?_
  · intro kv hkv
    simp only [List.mem_cons, List.mem_singleton] at hkv
    rcases hkv with rfl | rfl | h
    · exact ⟨[("utilization", .num 30)], rfl, ⟨30, rfl⟩, rfl, rfl, rfl⟩
    · exact ⟨[("utilization", .num 60)], rfl, ⟨60, rfl⟩, rfl, rfl, rfl⟩
    · cases h
  · intro kv hkv
    simp only [List.mem_cons, List.mem_singleton] at hkv
    rcases hkv with rfl | rfl | h
    · exact ⟨by decide, by decide, by decide, by decide, by decide⟩
    · exact ⟨by decide, by decide, by decide, by decide, by decide⟩
    · cases h

end ClaudeHue
